import Mathlib

/-!
Shallow embedding of the math core of a raylib-style library
(vectors, quaternions, 4x4 matrices, angular units, 3D camera),
with `f32` values modelled as real numbers.  Every definition mirrors
the corresponding Rust item; storage field `m{r}{c}` is the array
entry `self.0[r][c]` of the row-of-columns matrix storage.
-/

namespace Raymath

noncomputable section

open Real

open scoped Classical

/-- Model of `f32::EPSILON` (the machine epsilon of binary32, `2⁻²³`). -/
def f32eps : ℝ := 1 / 2 ^ 23

/-- Model of `impl NearEq for f32`:
`(self - other).abs() <= EPSILON * self.abs().max(other.abs()).max(1.0)`. -/
def fNearEq (a b : ℝ) : Prop := |a - b| ≤ f32eps * max (max |a| |b|) 1

/-- Model of Rust `f32::clamp(min, max)` for ordered bounds. -/
def rclamp (v lo hi : ℝ) : ℝ := min (max v lo) hi

/-- Model of Rust `f32::signum` (sign of a nonzero real; `1` at zero,
matching `+0.0`). -/
def rsignum (v : ℝ) : ℝ := if v < 0 then -1 else 1

/-- `Vector3 { x, y, z }` from `src/math/vector.rs`. -/
structure Vector3 where
  x : ℝ
  y : ℝ
  z : ℝ

namespace Vector3

/-- Componentwise addition (`impl Add for Vector3`). -/
def add (a b : Vector3) : Vector3 := ⟨a.x + b.x, a.y + b.y, a.z + b.z⟩

/-- Componentwise subtraction (`impl Sub for Vector3`). -/
def sub (a b : Vector3) : Vector3 := ⟨a.x - b.x, a.y - b.y, a.z - b.z⟩

/-- Scalar multiplication (`impl Mul<f32> for Vector3`). -/
def smul (a : Vector3) (s : ℝ) : Vector3 := ⟨a.x * s, a.y * s, a.z * s⟩

/-- Scalar-on-the-left multiplication (`impl Mul<Vector3> for f32`). -/
def smulLeft (s : ℝ) (a : Vector3) : Vector3 := ⟨s * a.x, s * a.y, s * a.z⟩

/-- `impl DotProduct for Vector3`. -/
def dot (a b : Vector3) : ℝ := a.x * b.x + a.y * b.y + a.z * b.z

/-- `Vector3::cross_product`. -/
def cross_product (a b : Vector3) : Vector3 :=
  ⟨a.y * b.z - a.z * b.y, a.z * b.x - a.x * b.z, a.x * b.y - a.y * b.x⟩

/-- `magnitude_sqr` = `dot(self, self)` (blanket `Magnitude` impl). -/
def magnitude_sqr (a : Vector3) : ℝ := dot a a

/-- `magnitude` = `magnitude_sqr().sqrt()` (blanket `Magnitude` impl). -/
def magnitude (a : Vector3) : ℝ := Real.sqrt (magnitude_sqr a)

/-- Blanket `Normalize` impl: `self / self.magnitude()`, where `Div<f32>`
multiplies by the reciprocal. -/
def normalize (a : Vector3) : Vector3 := smul a (1 / magnitude a)

/-- Blanket `Distance` impl: `(self - other).magnitude()`. -/
def distance (a b : Vector3) : ℝ := magnitude (sub a b)

/-- `Vector3::UNIT_Y`. -/
def UNIT_Y : Vector3 := ⟨0, 1, 0⟩

end Vector3

/-- `Quaternion { x, y, z, w }` from `src/math/quaternion.rs`. -/
structure Quaternion where
  x : ℝ
  y : ℝ
  z : ℝ
  w : ℝ

namespace Quaternion

/-- `Quaternion::IDENTITY`. -/
def IDENTITY : Quaternion := ⟨0, 0, 0, 1⟩

/-- Componentwise negation (`impl Neg for Quaternion`). -/
def neg (a : Quaternion) : Quaternion := ⟨-a.x, -a.y, -a.z, -a.w⟩

/-- Componentwise addition (`impl Add for Quaternion`). -/
def add (a b : Quaternion) : Quaternion :=
  ⟨a.x + b.x, a.y + b.y, a.z + b.z, a.w + b.w⟩

/-- Scalar multiplication (`impl Mul<f32> for Quaternion`). -/
def smul (a : Quaternion) (s : ℝ) : Quaternion :=
  ⟨a.x * s, a.y * s, a.z * s, a.w * s⟩

/-- `impl DotProduct for Quaternion`. -/
def dot (a b : Quaternion) : ℝ :=
  a.x * b.x + a.y * b.y + a.z * b.z + a.w * b.w

/-- `impl Mul for Quaternion` (two-quaternion multiplication), transcribed
verbatim from the source, including its `w` component
`self.w * rhs.w - self.w * rhs.x - self.w * rhs.y - self.z * rhs.z`. -/
def mul (a b : Quaternion) : Quaternion :=
  ⟨a.x * b.w + a.w * b.x + a.y * b.z - a.z * b.y,
   a.y * b.w + a.w * b.y + a.z * b.x - a.x * b.z,
   a.z * b.w + a.w * b.z + a.x * b.y - a.y * b.x,
   a.w * b.w - a.w * b.x - a.w * b.y - a.z * b.z⟩

/-- The `w` component of the Hamilton product as stated by the specification:
`a.w*b.w - a.x*b.x - a.y*b.y - a.z*b.z`.  Modelled from the spec for
comparison against `Quaternion.mul`. -/
def hamiltonW (a b : Quaternion) : ℝ :=
  a.w * b.w - a.x * b.x - a.y * b.y - a.z * b.z

/-- `impl LerpTo for Quaternion`: componentwise `self + amount*(target-self)`
(the `f32` `lerp_to`). -/
def lerpTo (a b : Quaternion) (amount : ℝ) : Quaternion :=
  ⟨a.x + amount * (b.x - a.x),
   a.y + amount * (b.y - a.y),
   a.z + amount * (b.z - a.z),
   a.w + amount * (b.w - a.w)⟩

/-- `magnitude` = `dot(self,self).sqrt()` (blanket `Magnitude` impl). -/
def magnitude (a : Quaternion) : ℝ := Real.sqrt (dot a a)

/-- Blanket `Normalize` impl: `self / self.magnitude()`, with `Div<f32>`
multiplying by the reciprocal. -/
def normalize (a : Quaternion) : Quaternion := smul a (1 / magnitude a)

/-- `Quaternion::nlerp_to`: `self.lerp_to(target, amount).normalize()`. -/
def nlerpTo (a b : Quaternion) (amount : ℝ) : Quaternion :=
  normalize (lerpTo a b amount)

/-- `Quaternion::slerp_to`, transcribed from the source.  The two leading
`if cos_half_theta < 0` mutations (negating `target` and the dot product
together) are modelled by the pair `flip`. -/
def slerpTo (a target0 : Quaternion) (amount : ℝ) : Quaternion :=
  let d0 := dot a target0
  let flip := if d0 < 0 then (neg target0, -d0) else (target0, d0)
  let target := flip.1
  let ch := flip.2
  if 1 ≤ ch then a
  else if 0.95 < ch then nlerpTo a target amount
  else
    let ht := Real.arccos ch
    let sh := Real.sqrt (1 - ch * ch)
    if |sh| < f32eps then add (smul a 0.5) (smul target 0.5)
    else add (smul a (Real.sin ((1 - amount) * ht) / sh))
             (smul target (Real.sin (amount * ht) / sh))

/-- The clamped intermediate `y0` of `Quaternion::to_euler`'s pitch
computation: `2.0 * (self.w * self.y - self.z * self.x).clamp(-1.0, 1.0)`
(the clamp is applied before the doubling, exactly as in the source). -/
def toEulerY0 (q : Quaternion) : ℝ :=
  2 * rclamp (q.w * q.y - q.z * q.x) (-1) 1

/-- The pitch (y-axis) angle returned by `Quaternion::to_euler`:
`y0.asin()`. -/
def toEulerPitch (q : Quaternion) : ℝ := Real.arcsin (toEulerY0 q)

/-- `impl NearEq for Quaternion` (note `&&` binds tighter than `||`). -/
def nearEq (a b : Quaternion) : Prop :=
  (fNearEq a.x b.x ∧ fNearEq a.y b.y ∧ fNearEq a.z b.z ∧ fNearEq a.w b.w) ∨
  (fNearEq a.x (-b.x) ∧ fNearEq a.y (-b.y) ∧ fNearEq a.z (-b.z) ∧
   fNearEq a.w (-b.w))

/-- Componentwise near-equality of two quaternions (the notion the
`Vector4` `NearEq` impl uses: every component near-equal). -/
def compwiseNearEq (a b : Quaternion) : Prop :=
  fNearEq a.x b.x ∧ fNearEq a.y b.y ∧ fNearEq a.z b.z ∧ fNearEq a.w b.w

end Quaternion

/-- `Matrix(pub [[f32; 4]; 4])` from `src/math/matrix.rs`: row-of-columns
storage, field `m{r}{c}` is `self.0[r][c]`. -/
structure Matrix where
  m00 : ℝ
  m01 : ℝ
  m02 : ℝ
  m03 : ℝ
  m10 : ℝ
  m11 : ℝ
  m12 : ℝ
  m13 : ℝ
  m20 : ℝ
  m21 : ℝ
  m22 : ℝ
  m23 : ℝ
  m30 : ℝ
  m31 : ℝ
  m32 : ℝ
  m33 : ℝ

namespace Matrix

/-- `Matrix::IDENTITY`. -/
def IDENTITY : Matrix :=
  ⟨1, 0, 0, 0,
   0, 1, 0, 0,
   0, 0, 1, 0,
   0, 0, 0, 1⟩

/-- `Matrix::transpose`. -/
def transpose (s : Matrix) : Matrix :=
  ⟨s.m00, s.m10, s.m20, s.m30,
   s.m01, s.m11, s.m21, s.m31,
   s.m02, s.m12, s.m22, s.m32,
   s.m03, s.m13, s.m23, s.m33⟩

/-- `impl Mul for Matrix`, transcribed entry by entry from the source
(`out.0[r][c] = Σ_k self.0[k][r] * rhs.0[c][k]`). -/
def mul (s r : Matrix) : Matrix :=
  ⟨s.m00 * r.m00 + s.m10 * r.m01 + s.m20 * r.m02 + s.m30 * r.m03,
   s.m00 * r.m10 + s.m10 * r.m11 + s.m20 * r.m12 + s.m30 * r.m13,
   s.m00 * r.m20 + s.m10 * r.m21 + s.m20 * r.m22 + s.m30 * r.m23,
   s.m00 * r.m30 + s.m10 * r.m31 + s.m20 * r.m32 + s.m30 * r.m33,
   s.m01 * r.m00 + s.m11 * r.m01 + s.m21 * r.m02 + s.m31 * r.m03,
   s.m01 * r.m10 + s.m11 * r.m11 + s.m21 * r.m12 + s.m31 * r.m13,
   s.m01 * r.m20 + s.m11 * r.m21 + s.m21 * r.m22 + s.m31 * r.m23,
   s.m01 * r.m30 + s.m11 * r.m31 + s.m21 * r.m32 + s.m31 * r.m33,
   s.m02 * r.m00 + s.m12 * r.m01 + s.m22 * r.m02 + s.m32 * r.m03,
   s.m02 * r.m10 + s.m12 * r.m11 + s.m22 * r.m12 + s.m32 * r.m13,
   s.m02 * r.m20 + s.m12 * r.m21 + s.m22 * r.m22 + s.m32 * r.m23,
   s.m02 * r.m30 + s.m12 * r.m31 + s.m22 * r.m32 + s.m32 * r.m33,
   s.m03 * r.m00 + s.m13 * r.m01 + s.m23 * r.m02 + s.m33 * r.m03,
   s.m03 * r.m10 + s.m13 * r.m11 + s.m23 * r.m12 + s.m33 * r.m13,
   s.m03 * r.m20 + s.m13 * r.m21 + s.m23 * r.m22 + s.m33 * r.m23,
   s.m03 * r.m30 + s.m13 * r.m31 + s.m23 * r.m32 + s.m33 * r.m33⟩

/-- `Matrix::translate(x, y, z)`. -/
def translate (x y z : ℝ) : Matrix :=
  ⟨1, 0, 0, x,
   0, 1, 0, y,
   0, 0, 1, z,
   0, 0, 0, 1⟩

/-- `Matrix::scale(x, y, z)`. -/
def scale (x y z : ℝ) : Matrix :=
  ⟨x, 0, 0, 0,
   0, y, 0, 0,
   0, 0, z, 0,
   0, 0, 0, 1⟩

/-- `Matrix::rotate(axis, angle)` (Rodrigues' grid on the normalized
axis). -/
def rotate (axis : Vector3) (angle : ℝ) : Matrix :=
  let n := axis.normalize
  let x := n.x
  let y := n.y
  let z := n.z
  let sinres := Real.sin angle
  let cosres := Real.cos angle
  let t := 1 - cosres
  ⟨x * x * t + cosres,     x * y * t - z * sinres, x * z * t + y * sinres, 0,
   y * x * t + z * sinres, y * y * t + cosres,     y * z * t - x * sinres, 0,
   z * x * t - y * sinres, z * y * t + x * sinres, z * z * t + cosres,     0,
   0,                      0,                      0,                      1⟩

/-- `Matrix::det`, using the destructuring
`let [a00, ..., a33] = <[f32; 16]>::from(self)` of the column-major
flattening (so `a01 = self.0[1][0]`, `a10 = self.0[0][1]`, ...). -/
def det (m : Matrix) : ℝ :=
  let a00 := m.m00
  let a01 := m.m10
  let a02 := m.m20
  let a03 := m.m30
  let a10 := m.m01
  let a11 := m.m11
  let a12 := m.m21
  let a13 := m.m31
  let a20 := m.m02
  let a21 := m.m12
  let a22 := m.m22
  let a23 := m.m32
  let a30 := m.m03
  let a31 := m.m13
  let a32 := m.m23
  let a33 := m.m33
  (a30 * a21 * a12 * a03) - (a20 * a31 * a12 * a03) - (a30 * a11 * a22 * a03) + (a10 * a31 * a22 * a03) +
  (a20 * a11 * a32 * a03) - (a10 * a21 * a32 * a03) - (a30 * a21 * a02 * a13) + (a20 * a31 * a02 * a13) +
  (a30 * a01 * a22 * a13) - (a00 * a31 * a22 * a13) - (a20 * a01 * a32 * a13) + (a00 * a21 * a32 * a13) +
  (a30 * a11 * a02 * a23) - (a10 * a31 * a02 * a23) - (a30 * a01 * a12 * a23) + (a00 * a31 * a12 * a23) +
  (a10 * a01 * a32 * a23) - (a00 * a11 * a32 * a23) - (a20 * a11 * a02 * a33) + (a10 * a21 * a02 * a33) +
  (a20 * a01 * a12 * a33) - (a00 * a21 * a12 * a33) - (a10 * a01 * a22 * a33) + (a00 * a11 * a22 * a33)

/-- `Matrix::invert` (closed-form block inversion with the six 2x2
sub-determinants `b00..b11`), transcribed from the source with the same
flattened names as `det`. -/
def invert (m : Matrix) : Matrix :=
  let a00 := m.m00
  let a01 := m.m10
  let a02 := m.m20
  let a03 := m.m30
  let a10 := m.m01
  let a11 := m.m11
  let a12 := m.m21
  let a13 := m.m31
  let a20 := m.m02
  let a21 := m.m12
  let a22 := m.m22
  let a23 := m.m32
  let a30 := m.m03
  let a31 := m.m13
  let a32 := m.m23
  let a33 := m.m33
  let b00 := a00 * a11 - a01 * a10
  let b01 := a00 * a12 - a02 * a10
  let b02 := a00 * a13 - a03 * a10
  let b03 := a01 * a12 - a02 * a11
  let b04 := a01 * a13 - a03 * a11
  let b05 := a02 * a13 - a03 * a12
  let b06 := a20 * a31 - a21 * a30
  let b07 := a20 * a32 - a22 * a30
  let b08 := a20 * a33 - a23 * a30
  let b09 := a21 * a32 - a22 * a31
  let b10 := a21 * a33 - a23 * a31
  let b11 := a22 * a33 - a23 * a32
  let inv_det := 1 / (b00 * b11 - b01 * b10 + b02 * b09 + b03 * b08 - b04 * b07 + b05 * b06)
  ⟨( a11 * b11 - a12 * b10 + a13 * b09) * inv_det,
   (-a10 * b11 + a12 * b08 - a13 * b07) * inv_det,
   ( a10 * b10 - a11 * b08 + a13 * b06) * inv_det,
   (-a10 * b09 + a11 * b07 - a12 * b06) * inv_det,
   (-a01 * b11 + a02 * b10 - a03 * b09) * inv_det,
   ( a00 * b11 - a02 * b08 + a03 * b07) * inv_det,
   (-a00 * b10 + a01 * b08 - a03 * b06) * inv_det,
   ( a00 * b09 - a01 * b07 + a02 * b06) * inv_det,
   ( a31 * b05 - a32 * b04 + a33 * b03) * inv_det,
   (-a30 * b05 + a32 * b02 - a33 * b01) * inv_det,
   ( a30 * b04 - a31 * b02 + a33 * b00) * inv_det,
   (-a30 * b03 + a31 * b01 - a32 * b00) * inv_det,
   (-a21 * b05 + a22 * b04 - a23 * b03) * inv_det,
   ( a20 * b05 - a22 * b02 + a23 * b01) * inv_det,
   (-a20 * b04 + a21 * b02 - a23 * b00) * inv_det,
   ( a20 * b03 - a21 * b01 + a22 * b00) * inv_det⟩

/-- `From<Matrix> for [f32; 16]`: the flattening order of the source
(`rows[0][0], rows[1][0], rows[2][0], rows[3][0], rows[0][1], ...`). -/
def toArray16 (m : Matrix) : Fin 16 → ℝ :=
  fun i =>
    match i with
    | ⟨0, _⟩ => m.m00
    | ⟨1, _⟩ => m.m10
    | ⟨2, _⟩ => m.m20
    | ⟨3, _⟩ => m.m30
    | ⟨4, _⟩ => m.m01
    | ⟨5, _⟩ => m.m11
    | ⟨6, _⟩ => m.m21
    | ⟨7, _⟩ => m.m31
    | ⟨8, _⟩ => m.m02
    | ⟨9, _⟩ => m.m12
    | ⟨10, _⟩ => m.m22
    | ⟨11, _⟩ => m.m32
    | ⟨12, _⟩ => m.m03
    | ⟨13, _⟩ => m.m13
    | ⟨14, _⟩ => m.m23
    | ⟨15, _⟩ => m.m33
    | ⟨n + 16, h⟩ => absurd h (by omega)

/-- The stored component `self.0[r][c]` of the row-of-columns storage. -/
def entry (m : Matrix) (r c : Fin 4) : ℝ :=
  match r, c with
  | ⟨0, _⟩, ⟨0, _⟩ => m.m00
  | ⟨0, _⟩, ⟨1, _⟩ => m.m01
  | ⟨0, _⟩, ⟨2, _⟩ => m.m02
  | ⟨0, _⟩, ⟨3, _⟩ => m.m03
  | ⟨1, _⟩, ⟨0, _⟩ => m.m10
  | ⟨1, _⟩, ⟨1, _⟩ => m.m11
  | ⟨1, _⟩, ⟨2, _⟩ => m.m12
  | ⟨1, _⟩, ⟨3, _⟩ => m.m13
  | ⟨2, _⟩, ⟨0, _⟩ => m.m20
  | ⟨2, _⟩, ⟨1, _⟩ => m.m21
  | ⟨2, _⟩, ⟨2, _⟩ => m.m22
  | ⟨2, _⟩, ⟨3, _⟩ => m.m23
  | ⟨3, _⟩, ⟨0, _⟩ => m.m30
  | ⟨3, _⟩, ⟨1, _⟩ => m.m31
  | ⟨3, _⟩, ⟨2, _⟩ => m.m32
  | ⟨3, _⟩, ⟨3, _⟩ => m.m33
  | ⟨n + 4, h⟩, _ => absurd h (by omega)
  | _, ⟨n + 4, h⟩ => absurd h (by omega)

end Matrix

/-- One reduction step of Rust's `Iterator::max_by` on `(index, value)`
pairs: the accumulator is kept only when strictly greater, so the last of
several equal maxima wins. -/
def maxByStep (p q : ℕ × ℝ) : ℕ × ℝ := if p.2 > q.2 then p else q

/-- `impl From<Matrix> for Quaternion` (largest-diagonal selection; the
source computes `biggest_val = (four_biggest_squared_minus_1 + 1.0) * 0.5`
with no square root, transcribed as written). -/
def quatFromMatrix (m : Matrix) : Quaternion :=
  let c0 := m.m00 + m.m11 + m.m22
  let c1 := m.m00 - m.m11 - m.m22
  let c2 := m.m11 - m.m00 - m.m22
  let c3 := m.m22 - m.m00 - m.m11
  let best := maxByStep (maxByStep (maxByStep (0, c0) (1, c1)) (2, c2)) (3, c3)
  let biggestVal := (best.2 + 1) * 0.5
  let mult := 0.25 / biggestVal
  match best.1 with
  | 0 => ⟨(m.m21 - m.m12) * mult, (m.m02 - m.m20) * mult,
          (m.m10 - m.m01) * mult, biggestVal⟩
  | 1 => ⟨biggestVal, (m.m10 + m.m01) * mult,
          (m.m02 + m.m20) * mult, (m.m21 - m.m12) * mult⟩
  | 2 => ⟨(m.m10 + m.m01) * mult, biggestVal,
          (m.m21 + m.m12) * mult, (m.m02 - m.m20) * mult⟩
  | _ => ⟨(m.m02 + m.m20) * mult, (m.m21 + m.m12) * mult,
          biggestVal, (m.m10 - m.m01) * mult⟩

/-- `Matrix::decompose`, returning `(translation, rotation, scale)`:
translation from `self.0[3][0..3]`, scale as signed column magnitudes of
the upper-left 3x3 (as addressed by the source), rotation by dividing the
scale out of the named entries and converting to a quaternion, or the
identity quaternion when the 3x3 determinant is near zero. -/
def Matrix.decompose (m : Matrix) : Vector3 × Quaternion × Vector3 :=
  let translation : Vector3 := ⟨m.m30, m.m31, m.m32⟩
  let a := m.m00
  let b := m.m10
  let c := m.m20
  let d := m.m01
  let e := m.m11
  let f := m.m21
  let g := m.m02
  let h := m.m12
  let i := m.m22
  let det3 := a * (e * i - f * h) + b * (f * g - d * i) + c * (d * h - e * g)
  let scale : Vector3 :=
    Vector3.smulLeft (rsignum det3)
      ⟨Vector3.magnitude ⟨a, b, c⟩, Vector3.magnitude ⟨d, e, f⟩,
       Vector3.magnitude ⟨g, h, i⟩⟩
  let rotation : Quaternion :=
    if ¬ fNearEq det3 0 then
      quatFromMatrix
        { m with
          m00 := m.m00 / scale.x, m10 := m.m10 / scale.x, m20 := m.m20 / scale.x,
          m01 := m.m01 / scale.y, m11 := m.m11 / scale.y, m21 := m.m21 / scale.y,
          m02 := m.m02 / scale.z, m12 := m.m12 / scale.z, m22 := m.m22 / scale.z }
    else
      Quaternion.IDENTITY
  (translation, rotation, scale)

/-- `CameraProjection` from `src/graphics/camera.rs`. -/
inductive CameraProjection where
  | Perspective : CameraProjection
  | Orthographic : CameraProjection

/-- `Camera3D` state from `src/graphics/camera.rs`. -/
structure Camera3D where
  position : Vector3
  target : Vector3
  up : Vector3
  fovy : ℝ
  projection : CameraProjection

namespace Camera3D

/-- `Camera3D::forward`: `(self.target - self.position).normalize()`. -/
def forward (cam : Camera3D) : Vector3 :=
  (Vector3.sub cam.target cam.position).normalize

/-- `Camera3D::move_to_target(delta)`:
`distance = (position.distance(target) + delta).max(f32::EPSILON)` and
`position = target + forward() * -distance`. -/
def move_to_target (cam : Camera3D) (delta : ℝ) : Camera3D :=
  let distance := max (Vector3.distance cam.position cam.target + delta) f32eps
  { cam with
    position := Vector3.add cam.target (Vector3.smul cam.forward (-distance)) }

end Camera3D

/-- `impl Angular for Radians`: the full turn, `std::f32::consts::TAU`. -/
def radiansFULL : ℝ := 2 * Real.pi

/-- `impl Angular for Radians`: `FRAC_1_16 = FRAC_PI_8`. -/
def radiansFRAC_1_16 : ℝ := Real.pi / 8

/-- `impl Angular for Radians`: `FRAC_1_12 = FRAC_PI_6`. -/
def radiansFRAC_1_12 : ℝ := Real.pi / 6

/-- `impl Angular for Radians`: `FRAC_1_8 = FRAC_PI_2` (transcribed as
written in the source). -/
def radiansFRAC_1_8 : ℝ := Real.pi / 2

/-- `impl Angular for Radians`: `FRAC_1_4 = FRAC_PI_2`. -/
def radiansFRAC_1_4 : ℝ := Real.pi / 2

/-- `impl Angular for Radians`: `FRAC_1_2 = PI`. -/
def radiansFRAC_1_2 : ℝ := Real.pi

/-- `impl Angular for Degrees`: the full turn, `360.0`. -/
def degreesFULL : ℝ := 360

/-- `impl Angular for Degrees`: `FRAC_1_16 = 22.5`. -/
def degreesFRAC_1_16 : ℝ := 22.5

/-- `impl Angular for Degrees`: `FRAC_1_12 = 30.0`. -/
def degreesFRAC_1_12 : ℝ := 30

/-- `impl Angular for Degrees`: `FRAC_1_8 = 45.0`. -/
def degreesFRAC_1_8 : ℝ := 45

/-- `impl Angular for Degrees`: `FRAC_1_4 = 90.0`. -/
def degreesFRAC_1_4 : ℝ := 90

/-- `impl Angular for Degrees`: `FRAC_1_2 = 180.0`. -/
def degreesFRAC_1_2 : ℝ := 180

/-- Near-equality of a real with itself always holds. -/
theorem fNearEq_self (a : ℝ) : fNearEq a a := by
  simp only [fNearEq, f32eps, sub_self, abs_zero]
  positivity

/-- Claim C1: the source's quaternion multiplication matches the stated
Hamilton-product formulas on the `x`, `y`, `z` components, but its `w`
component is not the Hamilton `w`: at `a = b = (1,0,0,0)` the code yields
`w = 0` while the Hamilton product's `w` is `-1`. -/
theorem quaternion_mul_w_not_hamilton :
    (∀ a b : Quaternion,
      (Quaternion.mul a b).x = a.x * b.w + a.w * b.x + a.y * b.z - a.z * b.y ∧
      (Quaternion.mul a b).y = a.y * b.w + a.w * b.y + a.z * b.x - a.x * b.z ∧
      (Quaternion.mul a b).z = a.z * b.w + a.w * b.z + a.x * b.y - a.y * b.x) ∧
    (Quaternion.mul ⟨1, 0, 0, 0⟩ ⟨1, 0, 0, 0⟩).w = 0 ∧
    Quaternion.hamiltonW ⟨1, 0, 0, 0⟩ ⟨1, 0, 0, 0⟩ = -1 := by
  refine ⟨fun a b => ⟨rfl, rfl, rfl⟩, ?_, ?_⟩ <;>
    norm_num [Quaternion.mul, Quaternion.hamiltonW]

/-- Claim C2: multiplying by `Matrix::IDENTITY` on either side returns the
transpose of the stored components, not the matrix itself; in particular for
`M = translate(1,2,3)` the product `IDENTITY * M` has `0` where `M` stores
`1` (component `[0][3]`). -/
theorem identity_mul_gives_transpose :
    (∀ M : Matrix, Matrix.mul Matrix.IDENTITY M = M.transpose ∧
      Matrix.mul M Matrix.IDENTITY = M.transpose) ∧
    (Matrix.mul Matrix.IDENTITY (Matrix.translate 1 2 3)).m03 = 0 ∧
    (Matrix.translate 1 2 3).m03 = 1 ∧
    Matrix.mul Matrix.IDENTITY (Matrix.translate 1 2 3) ≠
      Matrix.translate 1 2 3 := by
  refine ⟨fun M => ⟨?_, ?_⟩, ?_, ?_, ?_⟩ <;>
    simp [Matrix.mul, Matrix.IDENTITY, Matrix.transpose, Matrix.translate,
      Matrix.mk.injEq]

set_option maxHeartbeats 4000000 in
/-- Claim C4: for every matrix with nonzero determinant, the product of
`Matrix::invert(M)` with `M` (in the library's own multiplication) is
exactly `Matrix::IDENTITY` in the real-number model. -/
theorem invert_mul_self (M : Matrix) (h : M.det ≠ 0) :
    Matrix.mul M.invert M = Matrix.IDENTITY := by
  obtain ⟨v00, v01, v02, v03, v10, v11, v12, v13,
    v20, v21, v22, v23, v30, v31, v32, v33⟩ := M
  simp only [Matrix.det] at h
  have hD : (v00 * v11 - v10 * v01) * (v22 * v33 - v32 * v23) -
      (v00 * v21 - v20 * v01) * (v12 * v33 - v32 * v13) +
      (v00 * v31 - v30 * v01) * (v12 * v23 - v22 * v13) +
      (v10 * v21 - v20 * v11) * (v02 * v33 - v32 * v03) -
      (v10 * v31 - v30 * v11) * (v02 * v23 - v22 * v03) +
      (v20 * v31 - v30 * v21) * (v02 * v13 - v12 * v03) ≠ 0 := by
    intro h0
    exact h (by linear_combination h0)
  simp only [Matrix.mul, Matrix.invert, Matrix.IDENTITY, Matrix.mk.injEq]
  refine ⟨?_, ?_, ?_, ?_, ?_, ?_, ?_, ?_, ?_, ?_, ?_, ?_, ?_, ?_, ?_, ?_⟩ <;>
    first
    | ring1
    | linear_combination one_div_mul_cancel hD

/-- Witness for C4 at the concrete nonsingular input `translate(1,2,3)`. -/
theorem invert_mul_self_witness :
    Matrix.det (Matrix.translate 1 2 3) ≠ 0 ∧
    Matrix.mul (Matrix.invert (Matrix.translate 1 2 3))
      (Matrix.translate 1 2 3) = Matrix.IDENTITY :=
  ⟨by norm_num [Matrix.det, Matrix.translate],
   invert_mul_self (Matrix.translate 1 2 3)
     (by norm_num [Matrix.det, Matrix.translate])⟩

/-- A vector with zero squared magnitude is the zero vector. -/
theorem Vector3.eq_zero_of_dot_self_eq_zero {v : Vector3}
    (h : Vector3.dot v v = 0) : v = ⟨0, 0, 0⟩ := by
  obtain ⟨x, y, z⟩ := v
  simp only [Vector3.dot] at h
  have hx : x = 0 := by nlinarith [sq_nonneg x, sq_nonneg y, sq_nonneg z]
  have hy : y = 0 := by nlinarith [sq_nonneg x, sq_nonneg y, sq_nonneg z]
  have hz : z = 0 := by nlinarith [sq_nonneg x, sq_nonneg y, sq_nonneg z]
  simp [hx, hy, hz]

/-- The squared magnitude of a nonzero vector is positive. -/
theorem Vector3.dot_self_pos {v : Vector3} (h : v ≠ ⟨0, 0, 0⟩) :
    0 < Vector3.dot v v := by
  rcases lt_or_eq_of_le (by
    obtain ⟨x, y, z⟩ := v
    simp only [Vector3.dot]
    nlinarith [mul_self_nonneg x, mul_self_nonneg y, mul_self_nonneg z] :
    (0 : ℝ) ≤ Vector3.dot v v) with hlt | heq
  · exact hlt
  · exact absurd (Vector3.eq_zero_of_dot_self_eq_zero heq.symm) h

/-- The magnitude of a nonzero vector is positive. -/
theorem Vector3.magnitude_pos {v : Vector3} (h : v ≠ ⟨0, 0, 0⟩) :
    0 < Vector3.magnitude v :=
  Real.sqrt_pos.mpr (Vector3.dot_self_pos h)

/-- Magnitude scales by the absolute value of the scalar. -/
theorem Vector3.magnitude_smul (v : Vector3) (c : ℝ) :
    Vector3.magnitude (Vector3.smul v c) = |c| * Vector3.magnitude v := by
  obtain ⟨x, y, z⟩ := v
  simp only [Vector3.magnitude, Vector3.magnitude_sqr, Vector3.smul, Vector3.dot]
  rw [show x * c * (x * c) + y * c * (y * c) + z * c * (z * c) =
    c ^ 2 * (x * x + y * y + z * z) from by ring,
    Real.sqrt_mul (sq_nonneg c), Real.sqrt_sq_eq_abs]

/-- Subtracting the base point of a translation recovers the offset. -/
theorem Vector3.sub_add_left (b u : Vector3) :
    Vector3.sub (Vector3.add b u) b = u := by
  obtain ⟨b1, b2, b3⟩ := b
  obtain ⟨u1, u2, u3⟩ := u
  simp only [Vector3.add, Vector3.sub, Vector3.mk.injEq]
  refine ⟨by ring, by ring, by ring⟩

/-- Iterated scalar multiplication multiplies the scalars. -/
theorem Vector3.smul_smul (v : Vector3) (c e : ℝ) :
    Vector3.smul (Vector3.smul v c) e = Vector3.smul v (c * e) := by
  obtain ⟨x, y, z⟩ := v
  simp only [Vector3.smul, Vector3.mk.injEq]
  refine ⟨by ring, by ring, by ring⟩

/-- Reversing a subtraction negates it. -/
theorem Vector3.sub_rev (a b : Vector3) :
    Vector3.sub a b = Vector3.smul (Vector3.sub b a) (-1) := by
  obtain ⟨a1, a2, a3⟩ := a
  obtain ⟨b1, b2, b3⟩ := b
  simp only [Vector3.sub, Vector3.smul, Vector3.mk.injEq]
  refine ⟨by ring, by ring, by ring⟩

/-- Distance is symmetric. -/
theorem Vector3.distance_symm (a b : Vector3) :
    Vector3.distance a b = Vector3.distance b a := by
  obtain ⟨a1, a2, a3⟩ := a
  obtain ⟨b1, b2, b3⟩ := b
  simp only [Vector3.distance, Vector3.magnitude, Vector3.magnitude_sqr,
    Vector3.sub, Vector3.dot]
  congr 1
  ring

/-- The difference of two distinct points is nonzero. -/
theorem Vector3.sub_ne_zero_of_ne {a b : Vector3} (h : a ≠ b) :
    Vector3.sub a b ≠ ⟨0, 0, 0⟩ := by
  intro h0
  apply h
  obtain ⟨a1, a2, a3⟩ := a
  obtain ⟨b1, b2, b3⟩ := b
  simp only [Vector3.sub, Vector3.mk.injEq] at h0 ⊢
  exact ⟨by linarith [h0.1], by linarith [h0.2.1], by linarith [h0.2.2]⟩

/-- Claim C8: for a camera whose position differs from its target,
`move_to_target(delta)` keeps target, up, fovy and projection, moves the
position along the line through target and the old position, and makes the
new position-to-target distance exactly
`max(old distance + delta, f32::EPSILON)`; hence the new distance is at
least `f32::EPSILON` and the new position is never the target. -/
theorem move_to_target_spec (cam : Camera3D) (delta : ℝ)
    (h : cam.position ≠ cam.target) :
    (cam.move_to_target delta).target = cam.target ∧
    (cam.move_to_target delta).up = cam.up ∧
    (cam.move_to_target delta).fovy = cam.fovy ∧
    (cam.move_to_target delta).projection = cam.projection ∧
    Vector3.distance (cam.move_to_target delta).position cam.target =
      max (Vector3.distance cam.position cam.target + delta) f32eps ∧
    f32eps ≤ Vector3.distance (cam.move_to_target delta).position cam.target ∧
    (cam.move_to_target delta).position ≠ cam.target ∧
    Vector3.sub (cam.move_to_target delta).position cam.target =
      Vector3.smul (Vector3.sub cam.position cam.target)
        (max (Vector3.distance cam.position cam.target + delta) f32eps /
          Vector3.distance cam.position cam.target) := by
  have heps : (0 : ℝ) < f32eps := by norm_num [f32eps]
  have hDpos :
      0 < max (Vector3.distance cam.position cam.target + delta) f32eps :=
    lt_of_lt_of_le heps (le_max_right _ _)
  have hvne : Vector3.sub cam.target cam.position ≠ ⟨0, 0, 0⟩ :=
    Vector3.sub_ne_zero_of_ne (Ne.symm h)
  have hm : 0 < Vector3.magnitude (Vector3.sub cam.target cam.position) :=
    Vector3.magnitude_pos hvne
  have hdist : Vector3.distance cam.position cam.target =
      Vector3.magnitude (Vector3.sub cam.target cam.position) := by
    rw [Vector3.distance_symm]
    rfl
  have hkey : Vector3.sub (cam.move_to_target delta).position cam.target =
      Vector3.smul (Vector3.sub cam.target cam.position)
        (1 / Vector3.magnitude (Vector3.sub cam.target cam.position) *
          -(max (Vector3.distance cam.position cam.target + delta) f32eps)) := by
    simp only [Camera3D.move_to_target, Camera3D.forward, Vector3.normalize]
    rw [Vector3.sub_add_left, Vector3.smul_smul]
  have hdist2 :
      Vector3.distance (cam.move_to_target delta).position cam.target =
        max (Vector3.distance cam.position cam.target + delta) f32eps := by
    have habs : |1 / Vector3.magnitude (Vector3.sub cam.target cam.position) *
        -(max (Vector3.distance cam.position cam.target + delta) f32eps)| =
        1 / Vector3.magnitude (Vector3.sub cam.target cam.position) *
          max (Vector3.distance cam.position cam.target + delta) f32eps := by
      rw [abs_of_nonpos (mul_nonpos_iff.mpr (Or.inl
        ⟨(one_div_pos.mpr hm).le, neg_nonpos.mpr hDpos.le⟩))]
      ring
    show Vector3.magnitude
        (Vector3.sub (cam.move_to_target delta).position cam.target) = _
    rw [hkey, Vector3.magnitude_smul, habs]
    field_simp
  refine ⟨rfl, rfl, rfl, rfl, hdist2, ?_, ?_, ?_⟩
  · rw [hdist2]
    exact le_max_right _ _
  · intro heq
    rw [heq] at hdist2
    have hzero : Vector3.distance cam.target cam.target = 0 := by
      obtain ⟨t1, t2, t3⟩ := cam.target
      simp [Vector3.distance, Vector3.sub, Vector3.magnitude,
        Vector3.magnitude_sqr, Vector3.dot]
    rw [hzero] at hdist2
    linarith
  · rw [hkey, Vector3.sub_rev cam.position cam.target, Vector3.smul_smul]
    congr 1
    rw [hdist]
    ring

/-- Witness for C8 at a concrete camera with `position ≠ target`. -/
theorem move_to_target_spec_witness :
    (Camera3D.mk ⟨0, 0, 5⟩ ⟨0, 0, 0⟩ ⟨0, 1, 0⟩ 45
        CameraProjection.Perspective).position ≠
      (Camera3D.mk ⟨0, 0, 5⟩ ⟨0, 0, 0⟩ ⟨0, 1, 0⟩ 45
        CameraProjection.Perspective).target ∧
    ((Camera3D.mk ⟨0, 0, 5⟩ ⟨0, 0, 0⟩ ⟨0, 1, 0⟩ 45
        CameraProjection.Perspective).move_to_target (-2)).position ≠
      (Camera3D.mk ⟨0, 0, 5⟩ ⟨0, 0, 0⟩ ⟨0, 1, 0⟩ 45
        CameraProjection.Perspective).target :=
  ⟨by simp [Vector3.mk.injEq],
   ((move_to_target_spec
      (Camera3D.mk ⟨0, 0, 5⟩ ⟨0, 0, 0⟩ ⟨0, 1, 0⟩ 45
        CameraProjection.Perspective) (-2)
      (by simp [Vector3.mk.injEq])).2.2.2.2.2.2).1⟩

/-- Claim C3: decomposing the matrix built by the library's own
multiplication as `translate(1,2,3) * rotate(UNIT_Y, PI/4) * scale(2,2,2)`
yields translation `(0,0,0)`, not `(1,2,3)`: the product carries the
translation in the last storage column (`[0..2][3]`) while `decompose`
reads `[3][0..2]`, the bottom storage row of the affine product, which is
zero. -/
theorem decompose_translation_not_recovered :
    (Matrix.decompose
      (Matrix.mul
        (Matrix.mul (Matrix.translate 1 2 3)
          (Matrix.rotate Vector3.UNIT_Y (Real.pi / 4)))
        (Matrix.scale 2 2 2))).1 = ⟨0, 0, 0⟩ ∧
    (⟨0, 0, 0⟩ : Vector3) ≠ ⟨1, 2, 3⟩ ∧
    (Matrix.mul
      (Matrix.mul (Matrix.translate 1 2 3)
        (Matrix.rotate Vector3.UNIT_Y (Real.pi / 4)))
      (Matrix.scale 2 2 2)).m13 = 2 := by
  refine ⟨?_, ?_, ?_⟩
  · simp only [Matrix.decompose, Matrix.mul, Matrix.translate, Matrix.rotate,
      Matrix.scale, Vector3.UNIT_Y, Vector3.normalize, Vector3.smul,
      Vector3.magnitude, Vector3.magnitude_sqr, Vector3.dot,
      Vector3.mk.injEq]
    norm_num
  · simp only [ne_eq, Vector3.mk.injEq]
    norm_num
  · simp only [Matrix.mul, Matrix.translate, Matrix.rotate, Matrix.scale,
      Vector3.UNIT_Y, Vector3.normalize, Vector3.smul, Vector3.magnitude,
      Vector3.magnitude_sqr, Vector3.dot]
    norm_num [Real.sqrt_one]

/-- Dotting with a negated quaternion negates the dot product. -/
theorem Quaternion.dot_neg_right (a b : Quaternion) :
    Quaternion.dot a (Quaternion.neg b) = -Quaternion.dot a b := by
  obtain ⟨ax, ay, az, aw⟩ := a
  obtain ⟨bx, b2, bz, bw⟩ := b
  simp only [Quaternion.dot, Quaternion.neg]
  ring

/-- Negation preserves the squared norm. -/
theorem Quaternion.dot_neg_neg (b : Quaternion) :
    Quaternion.dot (Quaternion.neg b) (Quaternion.neg b) = Quaternion.dot b b := by
  obtain ⟨bx, b2, bz, bw⟩ := b
  simp only [Quaternion.dot, Quaternion.neg]
  ring

/-- Cauchy–Schwarz for the four-component dot product. -/
theorem Quaternion.dot_sq_le_dot_mul_dot (a b : Quaternion) :
    Quaternion.dot a b ^ 2 ≤ Quaternion.dot a a * Quaternion.dot b b := by
  obtain ⟨ax, ay, az, aw⟩ := a
  obtain ⟨bx, b2, bz, bw⟩ := b
  simp only [Quaternion.dot]
  nlinarith [sq_nonneg (ax * b2 - ay * bx), sq_nonneg (ax * bz - az * bx),
    sq_nonneg (ax * bw - aw * bx), sq_nonneg (ay * bz - az * b2),
    sq_nonneg (ay * bw - aw * b2), sq_nonneg (az * bw - aw * bz)]

/-- Unit quaternions with dot product `1` are equal. -/
theorem Quaternion.eq_of_dot_eq_one {a b : Quaternion}
    (ha : Quaternion.dot a a = 1) (hb : Quaternion.dot b b = 1)
    (hd : Quaternion.dot a b = 1) : a = b := by
  obtain ⟨ax, ay, az, aw⟩ := a
  obtain ⟨bx, b2, bz, bw⟩ := b
  simp only [Quaternion.dot] at ha hb hd
  have key : ∀ u v : ℝ, (u - v) ^ 2 = 0 → u = v := by
    intro u v huv
    have h0 := sq_eq_zero_iff.mp huv
    linarith
  simp only [Quaternion.mk.injEq]
  refine ⟨key _ _ ?_, key _ _ ?_, key _ _ ?_, key _ _ ?_⟩ <;>
    · refine le_antisymm ?_ (sq_nonneg _)
      nlinarith [sq_nonneg (ax - bx), sq_nonneg (ay - b2), sq_nonneg (az - bz),
        sq_nonneg (aw - bw)]

/-- Normalizing a unit quaternion is the identity. -/
theorem Quaternion.normalize_of_unit {a : Quaternion}
    (ha : Quaternion.dot a a = 1) : Quaternion.normalize a = a := by
  obtain ⟨ax, ay, az, aw⟩ := a
  simp only [Quaternion.normalize, Quaternion.magnitude, ha, Real.sqrt_one]
  simp [Quaternion.smul]

/-- Linear interpolation at amount `0` returns the start. -/
theorem Quaternion.lerpTo_zero (a b : Quaternion) :
    Quaternion.lerpTo a b 0 = a := by
  obtain ⟨ax, ay, az, aw⟩ := a
  simp only [Quaternion.lerpTo, Quaternion.mk.injEq]
  refine ⟨by ring, by ring, by ring, by ring⟩

/-- Linear interpolation at amount `1` returns the target. -/
theorem Quaternion.lerpTo_one (a b : Quaternion) :
    Quaternion.lerpTo a b 1 = b := by
  obtain ⟨ax, ay, az, aw⟩ := a
  obtain ⟨bx, b2, bz, bw⟩ := b
  simp only [Quaternion.lerpTo, Quaternion.mk.injEq]
  refine ⟨by ring, by ring, by ring, by ring⟩

/-- In the fall-through branch of slerp the half-angle sine is far above
`f32::EPSILON`. -/
theorem Quaternion.slerp_sin_not_small {ch : ℝ} (hch0 : 0 ≤ ch)
    (hch95 : ch ≤ 0.95) : ¬ |Real.sqrt (1 - ch * ch)| < f32eps := by
  have hnn : (0 : ℝ) ≤ 1 - ch * ch := by nlinarith
  have hsq := Real.sq_sqrt hnn
  have hpos : 0 < Real.sqrt (1 - ch * ch) := Real.sqrt_pos.mpr (by nlinarith)
  rw [abs_of_nonneg (Real.sqrt_nonneg _), not_lt]
  simp only [f32eps]
  nlinarith [hsq, hpos]

/-- The body of slerp after the sign flip, at amount `0`, returns the
start quaternion. -/
theorem Quaternion.slerp_tail_zero (a t : Quaternion) (ch : ℝ)
    (ha : Quaternion.dot a a = 1) (hch0 : 0 ≤ ch) :
    (if 1 ≤ ch then a
     else if 0.95 < ch then Quaternion.nlerpTo a t 0
     else
       if |Real.sqrt (1 - ch * ch)| < f32eps then
         Quaternion.add (Quaternion.smul a 0.5) (Quaternion.smul t 0.5)
       else
         Quaternion.add
           (Quaternion.smul a
             (Real.sin ((1 - 0) * Real.arccos ch) / Real.sqrt (1 - ch * ch)))
           (Quaternion.smul t
             (Real.sin (0 * Real.arccos ch) / Real.sqrt (1 - ch * ch)))) = a := by
  by_cases h1 : 1 ≤ ch
  · rw [if_pos h1]
  · rw [if_neg h1]
    by_cases h2 : (0.95 : ℝ) < ch
    · rw [if_pos h2]
      simp only [Quaternion.nlerpTo, Quaternion.lerpTo_zero]
      exact Quaternion.normalize_of_unit ha
    · rw [if_neg h2,
        if_neg (Quaternion.slerp_sin_not_small hch0 (not_lt.mp h2))]
      have hpos : 0 < Real.sqrt (1 - ch * ch) := by
        have h95 := not_lt.mp h2
        exact Real.sqrt_pos.mpr (by nlinarith)
      have hsin : Real.sin (Real.arccos ch) = Real.sqrt (1 - ch * ch) := by
        rw [Real.sin_arccos]
        congr 1
        ring
      rw [show ((1 : ℝ) - 0) * Real.arccos ch = Real.arccos ch from by ring,
        show (0 : ℝ) * Real.arccos ch = 0 from by ring, Real.sin_zero, hsin,
        div_self (ne_of_gt hpos), zero_div]
      obtain ⟨ax, ay, az, aw⟩ := a
      obtain ⟨tx, t2, tz, tw⟩ := t
      simp only [Quaternion.add, Quaternion.smul, Quaternion.mk.injEq]
      refine ⟨by ring, by ring, by ring, by ring⟩

/-- The body of slerp after the sign flip, at amount `1`, returns the
(possibly negated) target. -/
theorem Quaternion.slerp_tail_one (a t : Quaternion) (ch : ℝ)
    (ha : Quaternion.dot a a = 1) (ht : Quaternion.dot t t = 1)
    (hch : Quaternion.dot a t = ch) (hch0 : 0 ≤ ch) :
    (if 1 ≤ ch then a
     else if 0.95 < ch then Quaternion.nlerpTo a t 1
     else
       if |Real.sqrt (1 - ch * ch)| < f32eps then
         Quaternion.add (Quaternion.smul a 0.5) (Quaternion.smul t 0.5)
       else
         Quaternion.add
           (Quaternion.smul a
             (Real.sin ((1 - 1) * Real.arccos ch) / Real.sqrt (1 - ch * ch)))
           (Quaternion.smul t
             (Real.sin (1 * Real.arccos ch) / Real.sqrt (1 - ch * ch)))) = t := by
  by_cases h1 : 1 ≤ ch
  · rw [if_pos h1]
    have hcs := Quaternion.dot_sq_le_dot_mul_dot a t
    rw [ha, ht, hch] at hcs
    have hch1 : ch = 1 := by nlinarith
    exact Quaternion.eq_of_dot_eq_one ha ht (by rw [hch, hch1])
  · rw [if_neg h1]
    by_cases h2 : (0.95 : ℝ) < ch
    · rw [if_pos h2]
      simp only [Quaternion.nlerpTo, Quaternion.lerpTo_one]
      exact Quaternion.normalize_of_unit ht
    · rw [if_neg h2,
        if_neg (Quaternion.slerp_sin_not_small hch0 (not_lt.mp h2))]
      have hpos : 0 < Real.sqrt (1 - ch * ch) := by
        have h95 := not_lt.mp h2
        exact Real.sqrt_pos.mpr (by nlinarith)
      have hsin : Real.sin (Real.arccos ch) = Real.sqrt (1 - ch * ch) := by
        rw [Real.sin_arccos]
        congr 1
        ring
      rw [show ((1 : ℝ) - 1) * Real.arccos ch = 0 from by ring,
        show (1 : ℝ) * Real.arccos ch = Real.arccos ch from by ring,
        Real.sin_zero, hsin, div_self (ne_of_gt hpos), zero_div]
      obtain ⟨ax, ay, az, aw⟩ := a
      obtain ⟨tx, t2, tz, tw⟩ := t
      simp only [Quaternion.add, Quaternion.smul, Quaternion.mk.injEq]
      refine ⟨by ring, by ring, by ring, by ring⟩

/-- Claim C5 (amended): for unit quaternions, slerp at amount `0` returns
the start exactly, and slerp at amount `1` returns the target when
`dot(a,b) ≥ 0` but the negated target when `dot(a,b) < 0` (the same
rotation, opposite sign representation). -/
theorem slerp_to_boundary (a b : Quaternion) (ha : Quaternion.dot a a = 1)
    (hb : Quaternion.dot b b = 1) :
    Quaternion.slerpTo a b 0 = a ∧
    Quaternion.slerpTo a b 1 =
      (if 0 ≤ Quaternion.dot a b then b else Quaternion.neg b) := by
  by_cases hd : Quaternion.dot a b < 0
  · constructor
    · simp only [Quaternion.slerpTo]
      rw [if_pos hd]
      exact Quaternion.slerp_tail_zero a (Quaternion.neg b)
        (-Quaternion.dot a b) ha (by linarith)
    · simp only [Quaternion.slerpTo]
      rw [if_pos hd, if_neg (not_le.mpr hd)]
      exact Quaternion.slerp_tail_one a (Quaternion.neg b)
        (-Quaternion.dot a b) ha
        (by rw [Quaternion.dot_neg_neg]; exact hb)
        (Quaternion.dot_neg_right a b) (by linarith)
  · constructor
    · simp only [Quaternion.slerpTo]
      rw [if_neg hd]
      exact Quaternion.slerp_tail_zero a b (Quaternion.dot a b) ha
        (not_lt.mp hd)
    · simp only [Quaternion.slerpTo]
      rw [if_neg hd, if_pos (not_lt.mp hd)]
      exact Quaternion.slerp_tail_one a b (Quaternion.dot a b) ha hb rfl
        (not_lt.mp hd)

/-- Witness for C5's amended statement at concrete unit quaternions with
`dot = 0`. -/
theorem slerp_to_boundary_witness :
    Quaternion.dot ⟨0, 0, 0, 1⟩ ⟨0, 0, 0, 1⟩ = 1 ∧
    Quaternion.dot ⟨1, 0, 0, 0⟩ ⟨1, 0, 0, 0⟩ = 1 ∧
    (Quaternion.slerpTo ⟨0, 0, 0, 1⟩ ⟨1, 0, 0, 0⟩ 0 = ⟨0, 0, 0, 1⟩ ∧
     Quaternion.slerpTo ⟨0, 0, 0, 1⟩ ⟨1, 0, 0, 0⟩ 1 =
       (if 0 ≤ Quaternion.dot ⟨0, 0, 0, 1⟩ ⟨1, 0, 0, 0⟩ then ⟨1, 0, 0, 0⟩
        else Quaternion.neg ⟨1, 0, 0, 0⟩)) :=
  ⟨by norm_num [Quaternion.dot], by norm_num [Quaternion.dot],
   slerp_to_boundary ⟨0, 0, 0, 1⟩ ⟨1, 0, 0, 0⟩
     (by norm_num [Quaternion.dot]) (by norm_num [Quaternion.dot])⟩

/-- Claim C5 counterexample: at the unit quaternions `a = (0,0,0,1)` and
`b = (0,0,0,-1)` (where `dot(a,b) = -1 < 0`), slerp at amount `1` returns
`a = -b`, whose `w` component `1` is not near-equal to `b`'s `-1`. -/
theorem slerp_to_one_not_target :
    Quaternion.dot ⟨0, 0, 0, 1⟩ ⟨0, 0, 0, 1⟩ = 1 ∧
    Quaternion.dot ⟨0, 0, 0, -1⟩ ⟨0, 0, 0, -1⟩ = 1 ∧
    Quaternion.slerpTo ⟨0, 0, 0, 1⟩ ⟨0, 0, 0, -1⟩ 1 = ⟨0, 0, 0, 1⟩ ∧
    Quaternion.slerpTo ⟨0, 0, 0, 1⟩ ⟨0, 0, 0, -1⟩ 1 ≠ ⟨0, 0, 0, -1⟩ ∧
    ¬ fNearEq (Quaternion.slerpTo ⟨0, 0, 0, 1⟩ ⟨0, 0, 0, -1⟩ 1).w (-1) := by
  have heval : Quaternion.slerpTo ⟨0, 0, 0, 1⟩ ⟨0, 0, 0, -1⟩ 1 =
      (⟨0, 0, 0, 1⟩ : Quaternion) := by
    norm_num [Quaternion.slerpTo, Quaternion.dot, Quaternion.neg]
  refine ⟨by norm_num [Quaternion.dot], by norm_num [Quaternion.dot], heval,
    ?_, ?_⟩
  · rw [heval]
    simp only [ne_eq, Quaternion.mk.injEq]
    norm_num
  · rw [heval]
    norm_num [fNearEq, f32eps]

/-- Claim C6: the degree-unit fractional-turn constants all equal the stated
fraction of a full turn, and so do the radian-unit constants except
`Radians::FRAC_1_8`, which the source sets to `FRAC_PI_2` (a quarter turn)
instead of `FULL/8`. -/
theorem fractional_turn_constants :
    (degreesFRAC_1_16 = degreesFULL / 16 ∧ degreesFRAC_1_12 = degreesFULL / 12 ∧
     degreesFRAC_1_8 = degreesFULL / 8 ∧ degreesFRAC_1_4 = degreesFULL / 4 ∧
     degreesFRAC_1_2 = degreesFULL / 2) ∧
    (radiansFRAC_1_16 = radiansFULL / 16 ∧ radiansFRAC_1_12 = radiansFULL / 12 ∧
     radiansFRAC_1_4 = radiansFULL / 4 ∧ radiansFRAC_1_2 = radiansFULL / 2) ∧
    radiansFRAC_1_8 = radiansFRAC_1_4 ∧
    radiansFRAC_1_8 ≠ radiansFULL / 8 := by
  refine ⟨⟨?_, ?_, ?_, ?_, ?_⟩, ⟨?_, ?_, ?_, ?_⟩, ?_, ?_⟩
  · norm_num [degreesFRAC_1_16, degreesFULL]
  · norm_num [degreesFRAC_1_12, degreesFULL]
  · norm_num [degreesFRAC_1_8, degreesFULL]
  · norm_num [degreesFRAC_1_4, degreesFULL]
  · norm_num [degreesFRAC_1_2, degreesFULL]
  · simp only [radiansFRAC_1_16, radiansFULL]; ring
  · simp only [radiansFRAC_1_12, radiansFULL]; ring
  · simp only [radiansFRAC_1_4, radiansFULL]; ring
  · simp only [radiansFRAC_1_2, radiansFULL]; ring
  · rfl
  · intro h
    have hπ := Real.pi_pos
    simp only [radiansFRAC_1_8, radiansFULL] at h
    linarith

/-- Claim C7: the pitch computation of `to_euler` clamps before doubling,
so the argument handed to `asin` is not confined to `[-1, 1]`: at
`q = (x,y,z,w) = (0, 1, 0, 3/4)` the `asin` argument is `3/2`. -/
theorem to_euler_pitch_arg_escapes :
    Quaternion.toEulerY0 ⟨0, 1, 0, 3 / 4⟩ = 3 / 2 ∧
    ¬ Quaternion.toEulerY0 ⟨0, 1, 0, 3 / 4⟩ ≤ 1 := by
  norm_num [Quaternion.toEulerY0, rclamp]

/-- Claim C9: the `[f32; 16]` conversion is the column-major flattening of
the row-major storage: the output element at `4*c + r` is the stored
component `[r][c]`. -/
theorem from_matrix_is_column_major (m : Matrix) (r c : Fin 4) :
    Matrix.toArray16 m ⟨4 * c.val + r.val, by omega⟩ = Matrix.entry m r c := by
  fin_cases r <;> fin_cases c <;> rfl

/-- Claim C10: quaternion near-equality holds exactly when the components
are near-equal to those of the other quaternion or to those of its
negation, and every quaternion is near-equal to its own negation. -/
theorem quaternion_near_eq_up_to_sign (q r : Quaternion) :
    (Quaternion.nearEq q r ↔
      (Quaternion.compwiseNearEq q r ∨
       Quaternion.compwiseNearEq q (Quaternion.neg r))) ∧
    Quaternion.nearEq q (Quaternion.neg q) := by
  constructor
  · simp [Quaternion.nearEq, Quaternion.compwiseNearEq, Quaternion.neg]
  · right
    simp only [Quaternion.neg, neg_neg]
    exact ⟨fNearEq_self q.x, fNearEq_self q.y, fNearEq_self q.z, fNearEq_self q.w⟩

end

end Raymath
